import Mathlib

/-!
Shallow embedding of `git_backup.py` (a tool that mirrors a user's GitHub
repositories into a local backup directory) together with proofs about its
repository-set reconciliation and sync logic.

Conventions of the embedding:
* Repository names, directory entries and error texts are Lean `String`s.
* Python `set`s become `Finset String`.
* External effects (the `git` subprocess calls, `os.rename`, entry removal,
  HTTP requests) are modelled by outcome oracles: an `Env` records, per
  repository name, whether each subprocess/filesystem step would succeed, and
  a page oracle `Nat → PageResult` records what each HTTP request would
  return.  The pure control flow of the Python code is translated directly.
* Fallible code returns `Except`.
-/

/-- `_LOCK_FILE_NAME = ".lock"` (git_backup.py line 24). -/
def LOCK_FILE_NAME : String := ".lock"

/-! ### Name Validator (`_backup`, lines 91-95)

The code compiles `re.compile(r"^[a-zA-Z0-9_-][a-zA-Z0-9._-]*")` and drops
every name for which `name_re.search(name)` returns `None`.  The character
classes are the ASCII ones. -/

/-- Character class `[a-zA-Z0-9_-]` of the leading position of the regex.
`Char.isAlpha`/`Char.isDigit` are exactly the ASCII ranges `A-Za-z`/`0-9`. -/
def isNameStartChar (c : Char) : Bool :=
  c.isAlpha || c.isDigit || c == '_' || c == '-'

/-- Character class `[a-zA-Z0-9._-]` of the starred tail of the regex. -/
def isNameChar (c : Char) : Bool :=
  isNameStartChar c || c == '.'

/-- Matching of the pattern `[a-zA-Z0-9_-][a-zA-Z0-9._-]*` at position 0 of
the input, returning the (greedy) matched text, `none` when there is no
match.  The pattern is anchored at the start by `^` but has no `$` end
anchor, so the starred tail simply stops at the first character outside its
class; the match never has to reach the end of the string. -/
def nameReMatchAt0 : List Char → Option (List Char)
  | [] => none
  | c :: rest =>
    if isNameStartChar c then some (c :: rest.takeWhile isNameChar) else none

/-- `name_re.search(name) is not None` (git_backup.py line 93).  Since the
pattern starts with `^` (and `re.MULTILINE` is not set), `re.search` can
only match at position 0. -/
def nameReSearchFound (name : String) : Bool :=
  (nameReMatchAt0 name.data).isSome

/-- Rendering of the claim's words (spec §4.2 / §8): the name matches the
pattern with the first character in `[A-Za-z0-9_-]` and every subsequent
character in `[A-Za-z0-9._-]`, to the end of the string.  This is the
spec-side notion, kept separate from `nameReSearchFound`, which embeds what
the code actually checks. -/
def specFullMatchChars : List Char → Bool
  | [] => false
  | c :: rest => isNameStartChar c && rest.all isNameChar

/-- Spec-side full-string validation of a repository name. -/
def specFullNameMatch (name : String) : Bool :=
  specFullMatchChars name.data

/-! ### Sorting (`_backup`, line 86)

`repositories = sorted(_get_user_repositories(user), key=lambda name: name.lower())`.
Modelled by an insertion sort on the `toLower` key; only the fact that the
result is a permutation (same members) matters for the claims. -/

/-- Insert one name into a list sorted by the lower-cased key. -/
def insertByLower (x : String) : List String → List String
  | [] => [x]
  | y :: ys => if x.toLower ≤ y.toLower then x :: y :: ys else y :: insertByLower x ys

/-- `sorted(names, key=lambda name: name.lower())`. -/
def sortByLower : List String → List String
  | [] => []
  | x :: xs => insertByLower x (sortByLower xs)

/-- Lines 86-95 of `_backup`: sort the listed names case-insensitively, then
drop every name the validator regex does not accept.  (The Python code
iterates over a copy of the list and calls `list.remove`; since the list
comes from a `set` it has no duplicates, so this is exactly a filter.) -/
def validatedNames (remote : List String) : List String :=
  (sortByLower remote).filter nameReSearchFound

/-! ### Outcome environment for subprocess / filesystem steps -/

/-- Per-name outcome oracles for the external steps the sync performs:
`git fetch`, `git clone --mirror`, `git gc --aggressive`, `os.rename` of the
temporary clone, and `_rm_path` removal of a stale entry. -/
structure Env where
  fetchOk : String → Bool
  cloneOk : String → Bool
  gcOk : String → Bool
  renameOk : String → Bool
  deleteOk : String → Bool

/-- The externally visible operations a run attempts, tagged by the
repository / entry name they are about. -/
inductive MirrorOp where
  | deleteEntry (name : String)
  | fetch (name : String)
  | clone (name : String)
  | gc (name : String)
  | rename (name : String)
deriving DecidableEq

/-- The hidden temporary clone path: `temp_path = os.path.join(backup_dir, "." + name)`
(git_backup.py line 173), as a directory-entry name. -/
def tempName (name : String) : String := "." ++ name

/-! ### Mirror Operator (`_mirror_repo`, lines 171-194)

State is the set of entry names currently present in the backup directory.
If the final path exists, the repository is fetched in place (fetch failure
is logged only and changes nothing).  Otherwise the repository is cloned
into the hidden temporary path, optimized there, and only then renamed to
the final name; when the clone, the optimization or the rename fails the
error is caught and logged and the final name never appears — at most the
temporary entry is left behind (we model the failed steps as leaving the
temporary entry, the worst case allowed by the code). -/
def mirrorRepo (env : Env) (name : String) (locals : Finset String) :
    Finset String × List MirrorOp :=
  if name ∈ locals then
    (locals, [MirrorOp.fetch name])
  else
    if env.cloneOk name then
      if env.gcOk name then
        if env.renameOk name then
          (insert name locals, [MirrorOp.clone name, MirrorOp.gc name, MirrorOp.rename name])
        else
          (insert (tempName name) locals, [MirrorOp.clone name, MirrorOp.gc name, MirrorOp.rename name])
      else
        (insert (tempName name) locals, [MirrorOp.clone name, MirrorOp.gc name])
    else
      (insert (tempName name) locals, [MirrorOp.clone name])

/-- The loop of `_backup` lines 101-103: sync each repository in order. -/
def mirrorAll (env : Env) (names : List String) (locals : Finset String) :
    Finset String × List MirrorOp :=
  match names with
  | [] => (locals, [])
  | n :: rest =>
    let s := mirrorRepo env n locals
    let r := mirrorAll env rest s.1
    (r.1, s.2 ++ r.2)

/-! ### Reconciler cleanup (`_cleanup`, lines 106-122, and `_rm_path`) -/

/-- `cleanup_files = set(files) - set(repositories) - {_LOCK_FILE_NAME}`
(git_backup.py line 112). -/
def cleanupFiles (files repositories : Finset String) : Finset String :=
  (files \ repositories) \ {LOCK_FILE_NAME}

/-- Lines 114-122: attempt to remove every entry of `cleanup_files`.
`_rm_path` catches every filesystem error and only logs it, so exactly the
entries whose removal succeeds disappear; the attempted-deletion set and the
attempted `deleteEntry` operations cover all of `cleanup_files`.  Python
iterates the set in an unspecified order; we determinize it by sorting (the
claims only depend on which deletions are attempted).  Returns (resulting
entry set, attempted-deletion set, attempted operations). -/
def cleanupStep (env : Env) (locals : Finset String) (repositories : List String) :
    Finset String × Finset String × List MirrorOp :=
  let cf := cleanupFiles locals repositories.toFinset
  (locals \ cf.filter (fun n => env.deleteOk n), cf,
    (cf.sort (· ≤ ·)).map MirrorOp.deleteEntry)

/-- Result of one `_backup` run: the entries present afterwards, the
deletion set the Reconciler computed (`cleanup_files`), and the external
operations attempted, in order. -/
structure RunOutput where
  locals : Finset String
  deletions : Finset String
  ops : List MirrorOp

/-- `_backup(user, backup_dir)` (lines 85-103) after the remote listing
already succeeded with the name list `remote`: sort, validate, clean up
stale entries, then mirror every validated repository. -/
def backupRun (env : Env) (remote : List String) (locals : Finset String) : RunOutput :=
  let repositories := validatedNames remote
  let c := cleanupStep env locals repositories
  let m := mirrorAll env repositories c.1
  ⟨m.1, c.2.1, c.2.2 ++ m.2⟩

/-! ### Remote Lister (`_get_user_repositories`, lines 138-168) -/

/-- Top-level shape of one HTTP response body, as seen through
`response.json()`: `malformed` = `response.json()` raises `ValueError`;
`nonList` = it parses but `isinstance(repos_info, list)` is false;
`list names` = a well-formed list whose entries carry the given `"name"`
fields (one name per entry, in order). -/
inductive Payload where
  | malformed
  | nonList
  | list (names : List String)
deriving DecidableEq

/-- One HTTP response: whether `status_code == requests.codes.ok`, the
`reason` text, the `Content-Type` header (absent = `none`), and the body. -/
structure Response where
  statusOk : Bool
  reason : String
  contentType : Option String
  payload : Payload
deriving DecidableEq

/-- Result of one `requests.get` call: either a transport-level exception
(`requests.RequestException`) or a response. -/
inductive PageResult where
  | transportError (msg : String)
  | response (r : Response)
deriving DecidableEq

/-- Which raise-site inside the page loop fired.  All three are wrapped at
line 159 into `Error("Failed to get a list of user repositories from {}: {}")`;
the constructor records which underlying error it carries. -/
inductive ListerError where
  | transport (msg : String)
  | badStatus (reason : String)
  | invalidResponse
deriving DecidableEq

/-- Handling of one page (lines 144-159): transport failure propagates; a
non-OK status raises `Error(response.reason)`; then the inner `try` raises
`ValueError` when the `Content-Type` header equals `"application/json"`,
when the body fails to parse, or when the parsed body is not a list, and the
`except ValueError` turns that into `Error("Server returned an invalid
response.")`; otherwise the page's name list is returned. -/
def processPage : PageResult → Except ListerError (List String)
  | .transportError msg => .error (.transport msg)
  | .response r =>
    if r.statusOk = false then .error (.badStatus r.reason)
    else if r.contentType = some "application/json" then .error .invalidResponse
    else
      match r.payload with
      | .malformed => .error .invalidResponse
      | .nonList => .error .invalidResponse
      | .list names => .ok names

/-- The page loop `for page in range(1, max_pages + 1)` (lines 143-166),
with `fuel` counting the pages still allowed: a page error propagates; an
empty page breaks out of the loop (second component `false`); when the fuel
runs out the `for`-`else` branch logs "Got too many repositories" and the
collected set is returned (second component `true`, recording that the
ceiling log line was emitted). -/
def listPages (pages : Nat → PageResult) :
    Nat → Nat → Finset String → Except ListerError (Finset String × Bool)
  | 0, _, acc => .ok (acc, true)
  | fuel + 1, page, acc =>
    match processPage (pages page) with
    | .error e => .error e
    | .ok names =>
      if names = [] then .ok (acc, false)
      else listPages pages fuel (page + 1) (acc ∪ names.toFinset)

/-- `_get_user_repositories(user)` (lines 138-168): start with the empty
set at page 1 with `max_pages = 100`; the result set is the deduplicated
union of the names of the fetched pages. -/
def getUserRepositories (pages : Nat → PageResult) :
    Except ListerError (Finset String × Bool) :=
  listPages pages 100 1 ∅

/-- Union of the name lists of pages `start, start + 1, ..., start + cnt - 1`,
as a (deduplicated) finite set. -/
def unionFrom (pageNames : Nat → List String) (start cnt : Nat) : Finset String :=
  match cnt with
  | 0 => ∅
  | n + 1 => (pageNames start).toFinset ∪ unionFrom pageNames (start + 1) n

/-! ### Safety Gate (`_check_backup_dir`, lines 72-82) -/

/-- The two errno classes the gate distinguishes: `ENOENT` versus anything
else. -/
inductive Errno where
  | enoent
  | other
deriving DecidableEq

/-- Outcome of one `os.path.samefile(backup_dir, forbidden_dir)` call:
the two paths refer to the same filesystem object, to different objects, or
the call raises `EnvironmentError` with the given errno. -/
inductive SamefileOutcome where
  | same
  | different
  | fsError (e : Errno)
deriving DecidableEq

/-- The two ways `_check_backup_dir` raises `Error`. -/
inductive GateError where
  | checkFailed
  | invalidDir
deriving DecidableEq

/-- One iteration of the gate's loop: a non-`ENOENT` filesystem error
raises "Failed to check ... backup directory"; `ENOENT` is swallowed (the
`else` clause is skipped, nothing is raised); identity with the forbidden
directory raises "Invalid backup directory". -/
def checkForbidden : SamefileOutcome → Except GateError Unit
  | .same => .error .invalidDir
  | .different => .ok ()
  | .fsError .enoent => .ok ()
  | .fsError .other => .error .checkFailed

/-- `_check_backup_dir(backup_dir)`: the loop body runs for `"/"` first and
then for the home directory. -/
def checkBackupDir (rootCmp homeCmp : SamefileOutcome) : Except GateError Unit :=
  match checkForbidden rootCmp with
  | .error e => .error e
  | .ok _ => checkForbidden homeCmp

/-! ### The whole run (`main` + `_backup`, interactive mode) -/

/-- Why a run aborts with a non-zero exit code (`sys.exit("Error: ...")`). -/
inductive RunError where
  | configError
  | lockError
  | listingError (e : ListerError)
  | listDirError
deriving DecidableEq

/-- Every external input of one run: the two Safety Gate comparisons, the
outcome of `psys.daemon.acquire_pidfile` (external library, modelled as an
oracle), the HTTP page oracle, the outcome of `os.listdir(backup_dir)`
(`none` = `EnvironmentError`), and the per-name outcome oracles. -/
structure World where
  rootCmp : SamefileOutcome
  homeCmp : SamefileOutcome
  lockOk : Bool
  pages : Nat → PageResult
  listdir : Option (Finset String)
  env : Env

/-- One interactive-mode run of `main`: gate, lock, remote listing
(`_backup` line 86 — the first statement of `_backup`, before any local
mutation), local listing (`_cleanup` lines 107-110, whose failure raises
`Error("Unable to list ...")`), then cleanup and the mirror loop.  Returns
the operations attempted and `none` for a zero exit code, or `some e` when
the run aborts with `Error` (that is, exits non-zero). -/
def runMainTrace (w : World) : List MirrorOp × Option RunError :=
  match checkBackupDir w.rootCmp w.homeCmp with
  | .error _ => ([], some RunError.configError)
  | .ok _ =>
    if w.lockOk = false then ([], some RunError.lockError)
    else
      match getUserRepositories w.pages with
      | .error e => ([], some (RunError.listingError e))
      | .ok p =>
        match w.listdir with
        | none => ([], some RunError.listDirError)
        | some locals => ((backupRun w.env (p.1.sort (· ≤ ·)) locals).ops, none)

/-! ### General lemmas about the embedding -/

theorem mem_insertByLower (x a : String) :
    ∀ l : List String, a ∈ insertByLower x l ↔ a = x ∨ a ∈ l := by
  intro l
  induction l with
  | nil => simp [insertByLower]
  | cons y ys ih =>
    rw [insertByLower]
    split
    · simp
    · simp only [List.mem_cons, ih]
      tauto

theorem mem_sortByLower (a : String) :
    ∀ l : List String, a ∈ sortByLower l ↔ a ∈ l := by
  intro l
  induction l with
  | nil => simp [sortByLower]
  | cons x xs ih =>
    rw [sortByLower, mem_insertByLower]
    simp [ih]

theorem mem_validatedNames (n : String) (remote : List String) :
    n ∈ validatedNames remote ↔ n ∈ remote ∧ nameReSearchFound n = true := by
  rw [validatedNames, List.mem_filter, mem_sortByLower]

theorem subset_mirrorRepo (env : Env) (m : String) (L : Finset String) :
    L ⊆ (mirrorRepo env m L).1 := by
  rw [mirrorRepo]
  split
  · exact Finset.Subset.refl L
  · split
    · split
      · split
        · exact Finset.subset_insert _ _
        · exact Finset.subset_insert _ _
      · exact Finset.subset_insert _ _
    · exact Finset.subset_insert _ _

theorem mirrorRepo_ops_shape (env : Env) (m : String) (L : Finset String) :
    ∀ op ∈ (mirrorRepo env m L).2,
      op = MirrorOp.fetch m ∨ op = MirrorOp.clone m ∨ op = MirrorOp.gc m ∨
      op = MirrorOp.rename m := by
  rw [mirrorRepo]
  split
  · intro op hop; simp at hop; tauto
  · split
    · split
      · split
        · intro op hop; simp at hop; tauto
        · intro op hop; simp at hop; tauto
      · intro op hop; simp at hop; tauto
    · intro op hop; simp at hop; tauto

theorem mem_mirrorRepo_self (env : Env) (m : String) (L : Finset String) (h : m ∈ L) :
    mirrorRepo env m L = (L, [MirrorOp.fetch m]) := by
  rw [mirrorRepo, if_pos h]

theorem clone_mem_mirrorRepo (env : Env) (m : String) (L : Finset String) (h : m ∉ L) :
    MirrorOp.clone m ∈ (mirrorRepo env m L).2 := by
  rw [mirrorRepo, if_neg h]
  split
  · split
    · split
      · simp
      · simp
    · simp
  · simp

theorem clone_not_mem_mirrorRepo (env : Env) (m n : String) (L : Finset String) (h : n ∈ L) :
    MirrorOp.clone n ∉ (mirrorRepo env m L).2 := by
  intro hmem
  rcases mirrorRepo_ops_shape env m L _ hmem with h1 | h1 | h1 | h1 <;>
    first
    | (injection h1 with h2
       subst h2
       rw [mirrorRepo, if_pos h] at hmem
       simp at hmem)
    | exact MirrorOp.noConfusion h1

theorem subset_mirrorAll (env : Env) (names : List String) :
    ∀ L : Finset String, L ⊆ (mirrorAll env names L).1 := by
  induction names with
  | nil => intro L; rw [mirrorAll]
  | cons n rest ih =>
    intro L
    rw [mirrorAll]
    exact (subset_mirrorRepo env n L).trans (ih _)

theorem mirrorAll_ops_name_mem (env : Env) (names : List String) :
    ∀ (L : Finset String) (op : MirrorOp), op ∈ (mirrorAll env names L).2 →
      ∃ m ∈ names,
        op = MirrorOp.fetch m ∨ op = MirrorOp.clone m ∨ op = MirrorOp.gc m ∨
        op = MirrorOp.rename m := by
  induction names with
  | nil => intro L op hop; rw [mirrorAll] at hop; simp at hop
  | cons n rest ih =>
    intro L op hop
    rw [mirrorAll] at hop
    simp only [List.mem_append] at hop
    rcases hop with hop | hop
    · exact ⟨n, by simp, mirrorRepo_ops_shape env n L op hop⟩
    · obtain ⟨m, hm, hshape⟩ := ih _ op hop
      exact ⟨m, by simp [hm], hshape⟩

theorem fetch_mem_mirrorAll (env : Env) (names : List String) :
    ∀ (L : Finset String) (n : String), n ∈ names → n ∈ L →
      MirrorOp.fetch n ∈ (mirrorAll env names L).2 := by
  induction names with
  | nil => intro L n hn; simp at hn
  | cons m rest ih =>
    intro L n hn hL
    rw [mirrorAll]
    simp only [List.mem_append]
    rcases List.mem_cons.mp hn with rfl | hn
    · left
      rw [mem_mirrorRepo_self env n L hL]
      simp
    · right
      exact ih _ n hn (subset_mirrorRepo env m L hL)

theorem clone_not_mem_mirrorAll (env : Env) (names : List String) :
    ∀ (L : Finset String) (n : String), n ∈ L →
      MirrorOp.clone n ∉ (mirrorAll env names L).2 := by
  induction names with
  | nil => intro L n _ h; rw [mirrorAll] at h; simp at h
  | cons m rest ih =>
    intro L n hL hmem
    rw [mirrorAll] at hmem
    simp only [List.mem_append] at hmem
    rcases hmem with hmem | hmem
    · exact clone_not_mem_mirrorRepo env m n L hL hmem
    · exact ih _ n (subset_mirrorRepo env m L hL) hmem

theorem fetch_or_clone_mirrorAll (env : Env) (names : List String) :
    ∀ (L : Finset String) (n : String), n ∈ names →
      MirrorOp.fetch n ∈ (mirrorAll env names L).2 ∨
      MirrorOp.clone n ∈ (mirrorAll env names L).2 := by
  induction names with
  | nil => intro L n hn; simp at hn
  | cons m rest ih =>
    intro L n hn
    rw [mirrorAll]
    simp only [List.mem_append]
    rcases List.mem_cons.mp hn with rfl | hn
    · by_cases hL : n ∈ L
      · left; left
        rw [mem_mirrorRepo_self env n L hL]
        simp
      · right; left
        exact clone_mem_mirrorRepo env n L hL
    · rcases ih (mirrorRepo env m L).1 n hn with h | h
      · left; right; exact h
      · right; right; exact h

theorem mirrorAll_locals_allOk (env : Env) (hc : ∀ m, env.cloneOk m = true)
    (hg : ∀ m, env.gcOk m = true) (hr : ∀ m, env.renameOk m = true)
    (names : List String) :
    ∀ L : Finset String, (mirrorAll env names L).1 = L ∪ names.toFinset := by
  induction names with
  | nil => intro L; rw [mirrorAll]; simp
  | cons n rest ih =>
    intro L
    rw [mirrorAll]
    by_cases hL : n ∈ L
    · rw [mem_mirrorRepo_self env n L hL]
      rw [ih L]
      ext a
      simp only [Finset.mem_union, List.toFinset_cons, Finset.mem_insert]
      constructor
      · tauto
      · rintro (h | rfl | h) <;> tauto
    · rw [mirrorRepo, if_neg hL, if_pos (hc n), if_pos (hg n), if_pos (hr n)]
      rw [ih (insert n L)]
      ext a
      simp only [Finset.mem_union, Finset.mem_insert, List.toFinset_cons]
      tauto

theorem mirrorAll_ops_all_fetch (env : Env) (names : List String) :
    ∀ L : Finset String, (∀ n ∈ names, n ∈ L) →
      (mirrorAll env names L).2 = names.map MirrorOp.fetch := by
  induction names with
  | nil => intro L _; rw [mirrorAll]; rfl
  | cons n rest ih =>
    intro L h
    rw [mirrorAll, mem_mirrorRepo_self env n L (h n (by simp))]
    rw [ih L (fun m hm => h m (by simp [hm]))]
    rfl

theorem cleanupStep_deletions (env : Env) (L : Finset String) (repos : List String) :
    (cleanupStep env L repos).2.1 = cleanupFiles L repos.toFinset := rfl

theorem cleanupStep_fst (env : Env) (L : Finset String) (repos : List String) :
    (cleanupStep env L repos).1 =
      L \ (cleanupFiles L repos.toFinset).filter (fun n => env.deleteOk n) := rfl

theorem deleteEntry_mem_cleanupStep (env : Env) (L : Finset String) (repos : List String)
    (n : String) :
    MirrorOp.deleteEntry n ∈ (cleanupStep env L repos).2.2 ↔
      n ∈ cleanupFiles L repos.toFinset := by
  rw [cleanupStep]
  simp only [List.mem_map, Finset.mem_sort]
  constructor
  · rintro ⟨m, hm, heq⟩
    injection heq with h
    subst h
    exact hm
  · intro hn
    exact ⟨n, hn, rfl⟩

theorem cleanupStep_ops_shape (env : Env) (L : Finset String) (repos : List String) :
    ∀ op ∈ (cleanupStep env L repos).2.2,
      ∃ m ∈ cleanupFiles L repos.toFinset, op = MirrorOp.deleteEntry m := by
  intro op hop
  rw [cleanupStep] at hop
  simp only [List.mem_map, Finset.mem_sort] at hop
  obtain ⟨m, hm, heq⟩ := hop
  exact ⟨m, hm, heq.symm⟩

theorem backupRun_deletions (env : Env) (remote : List String) (L : Finset String) :
    (backupRun env remote L).deletions =
      cleanupFiles L (validatedNames remote).toFinset := rfl

theorem backupRun_ops (env : Env) (remote : List String) (L : Finset String) :
    (backupRun env remote L).ops =
      (cleanupStep env L (validatedNames remote)).2.2 ++
        (mirrorAll env (validatedNames remote)
          (cleanupStep env L (validatedNames remote)).1).2 := rfl

theorem backupRun_locals (env : Env) (remote : List String) (L : Finset String) :
    (backupRun env remote L).locals =
      (mirrorAll env (validatedNames remote)
        (cleanupStep env L (validatedNames remote)).1).1 := rfl

theorem tempName_ne (n : String) : tempName n ≠ n := by
  intro h
  have h2 := congrArg String.length h
  rw [tempName, String.length_append] at h2
  have h3 : ("." : String).length = 1 := rfl
  omega

theorem mem_unionFrom (pageNames : Nat → List String) (a : String) :
    ∀ cnt start, a ∈ unionFrom pageNames start cnt ↔
      ∃ i, start ≤ i ∧ i < start + cnt ∧ a ∈ pageNames i := by
  intro cnt
  induction cnt with
  | zero =>
    intro start
    rw [unionFrom]
    simp only [Finset.not_mem_empty, false_iff]
    rintro ⟨i, h1, h2, _⟩
    omega
  | succ c ih =>
    intro start
    rw [unionFrom]
    simp only [Finset.mem_union, List.mem_toFinset, ih (start + 1)]
    constructor
    · rintro (h | ⟨i, h1, h2, h3⟩)
      · exact ⟨start, le_rfl, by omega, h⟩
      · exact ⟨i, by omega, by omega, h3⟩
    · rintro ⟨i, h1, h2, h3⟩
      by_cases hi : i = start
      · subst hi; exact Or.inl h3
      · exact Or.inr ⟨i, by omega, by omega, h3⟩

theorem listPages_stops_empty (pages : Nat → PageResult) (pageNames : Nat → List String) :
    ∀ (fuel start : Nat) (acc : Finset String) (k : Nat), start + fuel = 101 →
      start ≤ k → k ≤ 100 → pageNames k = [] →
      (∀ i, start ≤ i → i < k → pageNames i ≠ []) →
      (∀ i, start ≤ i → i ≤ 100 → processPage (pages i) = .ok (pageNames i)) →
      listPages pages fuel start acc =
        .ok (acc ∪ unionFrom pageNames start (k - start), false) := by
  intro fuel
  induction fuel with
  | zero =>
    intro start acc k h1 h2 h3 _ _ _
    omega
  | succ f ih =>
    intro start acc k h1 h2 h3 hek hne hok
    have hps := hok start le_rfl (by omega)
    rw [listPages, hps]
    by_cases hsk : start = k
    · subst hsk
      simp only [hek, if_pos rfl]
      have : start - start = 0 := by omega
      rw [this, unionFrom]
      simp
    · have hlt : start < k := lt_of_le_of_ne h2 hsk
      have hne0 : pageNames start ≠ [] := hne start le_rfl hlt
      simp only [if_neg hne0]
      rw [ih (start + 1) (acc ∪ (pageNames start).toFinset) k (by omega) (by omega) h3 hek
        (fun i hi1 hi2 => hne i (by omega) hi2) (fun i hi1 hi2 => hok i (by omega) hi2)]
      have hcnt : k - start = (k - (start + 1)) + 1 := by omega
      rw [hcnt, unionFrom, Finset.union_assoc]

theorem listPages_ceiling (pages : Nat → PageResult) (pageNames : Nat → List String) :
    ∀ (fuel start : Nat) (acc : Finset String), start + fuel = 101 →
      (∀ i, start ≤ i → i ≤ 100 → pageNames i ≠ []) →
      (∀ i, start ≤ i → i ≤ 100 → processPage (pages i) = .ok (pageNames i)) →
      listPages pages fuel start acc =
        .ok (acc ∪ unionFrom pageNames start fuel, true) := by
  intro fuel
  induction fuel with
  | zero =>
    intro start acc _ _ _
    rw [listPages, unionFrom]
    simp
  | succ f ih =>
    intro start acc h1 hne hok
    have hps := hok start le_rfl (by omega)
    have hne0 : pageNames start ≠ [] := hne start le_rfl (by omega)
    rw [listPages, hps]
    simp only [if_neg hne0]
    rw [ih (start + 1) (acc ∪ (pageNames start).toFinset) (by omega)
      (fun i hi1 hi2 => hne i (by omega) hi2) (fun i hi1 hi2 => hok i (by omega) hi2)]
    rw [unionFrom, Finset.union_assoc]

/-! ### Concrete outcome environments used by witnesses and counterexamples -/

/-- Environment in which every external step succeeds. -/
def envAllOk : Env :=
  ⟨fun _ => true, fun _ => true, fun _ => true, fun _ => true, fun _ => true⟩

/-- Environment in which every git step succeeds but every entry removal
fails (for example an entry the process lacks permission to delete). -/
def envNoDelete : Env :=
  ⟨fun _ => true, fun _ => true, fun _ => true, fun _ => true, fun _ => false⟩

/-! ### Claims -/

/-- C1 counterexample: the claim says every name containing a path
separator `/` anywhere in it is rejected, but the validator regex has no
end anchor, so `re.search` matches the prefix `a` of `"a/b"` and the
validator accepts the name. -/
theorem claim1_counterexample :
    '/' ∈ ("a/b" : String).data ∧ nameReSearchFound "a/b" = true := by
  decide

/-- C1 (amended): every name matching the pattern to the end of the string
is accepted; every name starting with `.` — or with `/` or any other
character outside `[A-Za-z0-9_-]` as its first character — is rejected; but
because the regex is anchored only at the start, acceptance is equivalent
to the first character lying in `[A-Za-z0-9_-]`, so a name containing a
path separator after the first position is still accepted. -/
theorem claim1_validator_amended (s : String) :
    (specFullNameMatch s = true → nameReSearchFound s = true) ∧
    (∀ c cs, s.data = c :: cs → c = '.' ∨ c = '/' → nameReSearchFound s = false) ∧
    (nameReSearchFound s = true ↔
      ∃ c cs, s.data = c :: cs ∧ isNameStartChar c = true) := by
  refine ⟨?_, ?_, ?_⟩
  · intro h
    rw [specFullNameMatch] at h
    rw [nameReSearchFound]
    cases hd : s.data with
    | nil => rw [hd] at h; rw [specFullMatchChars] at h; exact absurd h (by simp)
    | cons c cs =>
      rw [hd] at h
      rw [nameReMatchAt0]
      rw [specFullMatchChars, Bool.and_eq_true] at h
      rw [if_pos h.1]
      rfl
  · rintro c cs hd (rfl | rfl) <;>
      · rw [nameReSearchFound, hd, nameReMatchAt0]
        rw [if_neg (by decide)]
        rfl
  · rw [nameReSearchFound]
    cases hd : s.data with
    | nil => simp [nameReMatchAt0]
    | cons c cs =>
      rw [nameReMatchAt0]
      constructor
      · intro h
        refine ⟨c, cs, rfl, ?_⟩
        by_contra hns
        rw [if_neg hns] at h
        simp at h
      · rintro ⟨c', cs', heq, hstart⟩
        injection heq with h1 h2
        subst h1
        rw [if_pos hstart]
        rfl

/-- C1 amended, witness at a concrete accepted name. -/
theorem claim1_validator_amended_witness :
    specFullNameMatch "a.b-c_1" = true ∧ nameReSearchFound "a.b-c_1" = true :=
  ⟨by decide, (claim1_validator_amended "a.b-c_1").1 (by decide)⟩

/-- C2 counterexample: the remote name `"+bad"` is rejected by the
validator, yet a pre-existing local entry named `"+bad"` does not remain on
disk: the cleanup pass computes it as a deletion target and removes it. -/
theorem claim2_counterexample :
    nameReSearchFound "+bad" = false ∧
    "+bad" ∈ ({"+bad"} : Finset String) ∧
    MirrorOp.deleteEntry "+bad" ∈ (backupRun envAllOk ["+bad"] {"+bad"}).ops ∧
    (backupRun envAllOk ["+bad"] {"+bad"}).locals = ∅ := by
  refine ⟨by decide, by decide, ?_, by decide⟩
  rw [backupRun_ops]
  simp only [List.mem_append]
  exact Or.inl ((deleteEntry_mem_cleanupStep envAllOk {"+bad"} _ "+bad").mpr (by decide))

/-- C2 (amended): a remote name that fails validation is never cloned and
never fetched, but a pre-existing local entry bearing that name is NOT
protected: unless it is the lock file it lands in the deletion set
`L − R − {".lock"}` and its removal is attempted like any other stale
entry. -/
theorem claim2_rejected_names_amended (env : Env) (remote : List String)
    (L : Finset String) (r : String) (hr : nameReSearchFound r = false) :
    MirrorOp.clone r ∉ (backupRun env remote L).ops ∧
    MirrorOp.fetch r ∉ (backupRun env remote L).ops ∧
    (r ∈ L → r ≠ LOCK_FILE_NAME →
      r ∈ (backupRun env remote L).deletions ∧
      MirrorOp.deleteEntry r ∈ (backupRun env remote L).ops) := by
  have hrv : r ∉ validatedNames remote := by
    intro h
    rw [mem_validatedNames] at h
    rw [h.2] at hr
    exact Bool.noConfusion hr
  refine ⟨?_, ?_, ?_⟩
  · rw [backupRun_ops]
    simp only [List.mem_append, not_or]
    constructor
    · intro h
      obtain ⟨m, _, hsh⟩ := cleanupStep_ops_shape env L _ _ h
      exact MirrorOp.noConfusion hsh
    · intro h
      obtain ⟨m, hm, hsh⟩ := mirrorAll_ops_name_mem env _ _ _ h
      rcases hsh with h1 | h1 | h1 | h1
      · exact MirrorOp.noConfusion h1
      · injection h1 with h2; subst h2; exact hrv hm
      · exact MirrorOp.noConfusion h1
      · exact MirrorOp.noConfusion h1
  · rw [backupRun_ops]
    simp only [List.mem_append, not_or]
    constructor
    · intro h
      obtain ⟨m, _, hsh⟩ := cleanupStep_ops_shape env L _ _ h
      exact MirrorOp.noConfusion hsh
    · intro h
      obtain ⟨m, hm, hsh⟩ := mirrorAll_ops_name_mem env _ _ _ h
      rcases hsh with h1 | h1 | h1 | h1
      · injection h1 with h2; subst h2; exact hrv hm
      · exact MirrorOp.noConfusion h1
      · exact MirrorOp.noConfusion h1
      · exact MirrorOp.noConfusion h1
  · intro hL hlock
    have hcf : r ∈ cleanupFiles L (validatedNames remote).toFinset := by
      rw [cleanupFiles]
      simp only [Finset.mem_sdiff, Finset.mem_singleton, List.mem_toFinset]
      exact ⟨⟨hL, hrv⟩, hlock⟩
    exact ⟨by rw [backupRun_deletions]; exact hcf,
      by rw [backupRun_ops]
         simp only [List.mem_append]
         exact Or.inl ((deleteEntry_mem_cleanupStep env L _ r).mpr hcf)⟩

/-- C2 amended, witness: the rejected name `".old"`, present locally, has
its deletion attempted. -/
theorem claim2_rejected_names_amended_witness :
    MirrorOp.deleteEntry ".old" ∈ (backupRun envAllOk [".old"] {".old"}).ops :=
  ((claim2_rejected_names_amended envAllOk [".old"] {".old"} ".old" (by decide)).2.2
    (by decide) (by decide)).2

/-- C3: for a validated remote list `remote` and local entry set `L`, the
Reconciler's deletion set is exactly `L − remote − {".lock"}`, and every
name both remote and local is neither deleted nor cloned — the run only
fetches it (the existing-path branch of `_mirror_repo`). -/
theorem claim3_reconciler (env : Env) (remote : List String) (L : Finset String)
    (hvalid : ∀ n ∈ remote, nameReSearchFound n = true) :
    (backupRun env remote L).deletions = (L \ remote.toFinset) \ {LOCK_FILE_NAME} ∧
    ∀ n ∈ remote, n ∈ L →
      MirrorOp.deleteEntry n ∉ (backupRun env remote L).ops ∧
      MirrorOp.clone n ∉ (backupRun env remote L).ops ∧
      MirrorOp.fetch n ∈ (backupRun env remote L).ops := by
  have hset : (validatedNames remote).toFinset = remote.toFinset := by
    ext a
    simp only [List.mem_toFinset, mem_validatedNames]
    exact ⟨fun h => h.1, fun h => ⟨h, hvalid a h⟩⟩
  constructor
  · rw [backupRun_deletions, cleanupFiles, hset]
  · intro n hn hL
    have hnv : n ∈ validatedNames remote :=
      (mem_validatedNames n remote).mpr ⟨hn, hvalid n hn⟩
    have hncf : n ∉ cleanupFiles L (validatedNames remote).toFinset := by
      rw [cleanupFiles]
      simp only [Finset.mem_sdiff, Finset.mem_singleton]
      rintro ⟨⟨_, hnot⟩, _⟩
      exact hnot (List.mem_toFinset.mpr hnv)
    have hnc1 : n ∈ (cleanupStep env L (validatedNames remote)).1 := by
      rw [cleanupStep_fst]
      simp only [Finset.mem_sdiff, Finset.mem_filter]
      exact ⟨hL, fun h => hncf h.1⟩
    refine ⟨?_, ?_, ?_⟩
    · rw [backupRun_ops]
      simp only [List.mem_append, not_or]
      refine ⟨fun h => hncf ((deleteEntry_mem_cleanupStep env L _ n).mp h), fun h => ?_⟩
      obtain ⟨m, _, hsh⟩ := mirrorAll_ops_name_mem env _ _ _ h
      rcases hsh with h1 | h1 | h1 | h1 <;> exact MirrorOp.noConfusion h1
    · rw [backupRun_ops]
      simp only [List.mem_append, not_or]
      refine ⟨fun h => ?_, clone_not_mem_mirrorAll env _ _ n hnc1⟩
      obtain ⟨m, _, hsh⟩ := cleanupStep_ops_shape env L _ _ h
      exact MirrorOp.noConfusion hsh
    · rw [backupRun_ops]
      simp only [List.mem_append]
      exact Or.inr (fetch_mem_mirrorAll env _ _ n hnv hnc1)

/-- C3 witness: remote `["a"]`, locals `{"a", "x"}` — `"a"` is fetched. -/
theorem claim3_reconciler_witness :
    MirrorOp.fetch "a" ∈ (backupRun envAllOk ["a"] {"a", "x"}).ops :=
  ((claim3_reconciler envAllOk ["a"] {"a", "x"} (by decide)).2 "a" (by decide)
    (by decide)).2.2

/-- C4 counterexample: a first run in which every repository is
successfully mirrored (all git steps succeed — `"a"` is cloned and ends up
present) but the removal of the stale entry `"old"` fails (a non-fatal,
logged error).  With the remote set unchanged, the second run's deletion
set is `{"old"}`, not empty — so "every repository successfully mirrored"
alone does not give an empty second deletion set. -/
theorem claim4_counterexample :
    "a" ∈ (backupRun envNoDelete ["a"] {"old"}).locals ∧
    (backupRun envNoDelete ["a"] {"old"}).locals = {"old", "a"} ∧
    (backupRun envNoDelete ["a"]
      (backupRun envNoDelete ["a"] {"old"}).locals).deletions = {"old"} ∧
    (backupRun envNoDelete ["a"]
      (backupRun envNoDelete ["a"] {"old"}).locals).deletions ≠ ∅ := by
  decide

/-- C4 (amended): if a run completes with every repository successfully
mirrored AND every stale-entry removal successful, then a second run over
the resulting directory with the same remote list computes an empty
deletion set and performs exactly one fetch per validated repository — no
clone, no rename, no deletion. -/
theorem claim4_idempotence_amended (env1 env2 : Env) (remote : List String)
    (L : Finset String)
    (hc : ∀ m, env1.cloneOk m = true) (hg : ∀ m, env1.gcOk m = true)
    (hrn : ∀ m, env1.renameOk m = true) (hd : ∀ m, env1.deleteOk m = true) :
    (backupRun env2 remote (backupRun env1 remote L).locals).deletions = ∅ ∧
    (backupRun env2 remote (backupRun env1 remote L).locals).ops =
      (validatedNames remote).map MirrorOp.fetch := by
  have hfilter : (cleanupFiles L (validatedNames remote).toFinset).filter
      (fun n => env1.deleteOk n) = cleanupFiles L (validatedNames remote).toFinset :=
    Finset.filter_true_of_mem (fun x _ => hd x)
  have hlocals1 : (backupRun env1 remote L).locals =
      (L \ cleanupFiles L (validatedNames remote).toFinset) ∪
        (validatedNames remote).toFinset := by
    rw [backupRun_locals, mirrorAll_locals_allOk env1 hc hg hrn, cleanupStep_fst, hfilter]
  have hdel2 : (backupRun env2 remote (backupRun env1 remote L).locals).deletions = ∅ := by
    rw [backupRun_deletions, hlocals1]
    ext x
    rw [cleanupFiles]
    simp only [Finset.mem_sdiff, Finset.mem_union, Finset.mem_singleton,
      Finset.not_mem_empty, iff_false]
    rintro ⟨⟨hx1, hx2⟩, hx3⟩
    rcases hx1 with ⟨hxL, hxncf⟩ | hxV
    · apply hxncf
      rw [cleanupFiles]
      simp only [Finset.mem_sdiff, Finset.mem_singleton]
      exact ⟨⟨hxL, hx2⟩, hx3⟩
    · exact hx2 hxV
  have hcf2 : cleanupFiles (backupRun env1 remote L).locals
      (validatedNames remote).toFinset = ∅ := by
    rw [backupRun_deletions] at hdel2
    exact hdel2
  refine ⟨hdel2, ?_⟩
  rw [backupRun_ops]
  have hops2 : (cleanupStep env2 (backupRun env1 remote L).locals
      (validatedNames remote)).2.2 = [] := by
    rw [cleanupStep]
    simp only [hcf2, Finset.sort_empty, List.map_nil]
  have hfst2 : (cleanupStep env2 (backupRun env1 remote L).locals
      (validatedNames remote)).1 = (backupRun env1 remote L).locals := by
    rw [cleanupStep_fst, hcf2, Finset.filter_empty, Finset.sdiff_empty]
  rw [hops2, hfst2, List.nil_append]
  apply mirrorAll_ops_all_fetch
  intro n hn
  rw [hlocals1]
  exact Finset.mem_union_right _ (List.mem_toFinset.mpr hn)

/-- C4 amended, witness: a concrete all-success first run followed by a
second run with the same remote list. -/
theorem claim4_idempotence_amended_witness :
    (backupRun envAllOk ["a"] (backupRun envAllOk ["a"] {"old"}).locals).deletions = ∅ ∧
    (backupRun envAllOk ["a"] (backupRun envAllOk ["a"] {"old"}).locals).ops =
      (validatedNames ["a"]).map MirrorOp.fetch :=
  claim4_idempotence_amended envAllOk envAllOk ["a"] {"old"}
    (fun _ => rfl) (fun _ => rfl) (fun _ => rfl) (fun _ => rfl)

/-- C7: for a repository absent locally, the final name appears exactly
when clone, optimization and rename all succeed; on success the rename is
what publishes the final name (the state gains exactly the final entry),
and on any failure the final name is absent and the state gains at most the
hidden temporary entry `"." ++ name`. -/
theorem claim7_clone_atomicity (env : Env) (n : String) (L : Finset String)
    (habs : n ∉ L) :
    (n ∈ (mirrorRepo env n L).1 ↔
      env.cloneOk n = true ∧ env.gcOk n = true ∧ env.renameOk n = true) ∧
    (env.cloneOk n = true ∧ env.gcOk n = true ∧ env.renameOk n = true →
      (mirrorRepo env n L).1 = insert n L) ∧
    (¬(env.cloneOk n = true ∧ env.gcOk n = true ∧ env.renameOk n = true) →
      n ∉ (mirrorRepo env n L).1 ∧
      (mirrorRepo env n L).1 = insert (tempName n) L) := by
  have htemp : n ∉ insert (tempName n) L := by
    rw [Finset.mem_insert]
    rintro (h | h)
    · exact tempName_ne n h.symm
    · exact habs h
  rw [mirrorRepo, if_neg habs]
  by_cases h1 : env.cloneOk n = true
  · rw [if_pos h1]
    by_cases h2 : env.gcOk n = true
    · rw [if_pos h2]
      by_cases h3 : env.renameOk n = true
      · rw [if_pos h3]
        refine ⟨?_, fun _ => rfl, fun hcon => absurd ⟨h1, h2, h3⟩ hcon⟩
        simp [Finset.mem_insert]
        tauto
      · rw [if_neg h3]
        refine ⟨?_, fun hall => absurd hall.2.2 h3, fun _ => ⟨htemp, rfl⟩⟩
        constructor
        · intro h; exact absurd h htemp
        · rintro ⟨_, _, hr⟩; exact absurd hr h3
    · rw [if_neg h2]
      refine ⟨?_, fun hall => absurd hall.2.1 h2, fun _ => ⟨htemp, rfl⟩⟩
      constructor
      · intro h; exact absurd h htemp
      · rintro ⟨_, hgc, _⟩; exact absurd hgc h2
  · rw [if_neg h1]
    refine ⟨?_, fun hall => absurd hall.1 h1, fun _ => ⟨htemp, rfl⟩⟩
    constructor
    · intro h; exact absurd h htemp
    · rintro ⟨hcl, _, _⟩; exact absurd hcl h1

/-- C7 witness: successful clone of `"a"` into an empty directory. -/
theorem claim7_clone_atomicity_witness :
    (mirrorRepo envAllOk "a" ∅).1 = insert "a" ∅ :=
  (claim7_clone_atomicity envAllOk "a" ∅ (by decide)).2.1 ⟨rfl, rfl, rfl⟩

/-- C5 (code bug): a success-status response whose `Content-Type` header is
exactly `"application/json"` and whose body is a well-formed JSON list is
rejected with the "server returned an invalid response" error — the inner
check at git_backup.py line 150 raises `ValueError` when the header EQUALS
`"application/json"`, the one content type a JSON endpoint response should
have, instead of when it differs.  The same body without that header value
is accepted and its entries collected, as the claim describes. -/
theorem claim5_content_type_inversion :
    processPage (.response ⟨true, "OK", some "application/json", .list ["repo"]⟩) =
      .error .invalidResponse ∧
    processPage (.response ⟨true, "OK", none, .list ["repo"]⟩) = .ok ["repo"] ∧
    processPage (.response ⟨true, "OK", some "text/html", .list ["repo"]⟩) =
      .ok ["repo"] :=
  ⟨rfl, rfl, rfl⟩

/-- C6: given pages that all process successfully, the Remote Lister
requests pages starting at 1 and: (a) stops at the first page `k` whose
entry list is empty, returning the deduplicated union of the names of pages
`1..k-1` with no ceiling log; (b) if no page among `1..100` is empty, it
stops after the 100-page ceiling, emits the too-many-pages error log (the
`true` flag) and still returns the collected set — not a fatal error.  The
membership characterizations make the "deduplicated union across fetched
pages" explicit: a name repeated across pages appears once in the
`Finset`. -/
theorem claim6_pagination (pages : Nat → PageResult) (pageNames : Nat → List String)
    (hok : ∀ i, 1 ≤ i → i ≤ 100 → processPage (pages i) = .ok (pageNames i)) :
    (∀ k, 1 ≤ k → k ≤ 100 → pageNames k = [] →
      (∀ i, 1 ≤ i → i < k → pageNames i ≠ []) →
      getUserRepositories pages = .ok (unionFrom pageNames 1 (k - 1), false) ∧
      ∀ a, a ∈ unionFrom pageNames 1 (k - 1) ↔
        ∃ i, 1 ≤ i ∧ i < k ∧ a ∈ pageNames i) ∧
    ((∀ i, 1 ≤ i → i ≤ 100 → pageNames i ≠ []) →
      getUserRepositories pages = .ok (unionFrom pageNames 1 100, true) ∧
      ∀ a, a ∈ unionFrom pageNames 1 100 ↔
        ∃ i, 1 ≤ i ∧ i ≤ 100 ∧ a ∈ pageNames i) := by
  constructor
  · intro k h1 h2 hek hne
    constructor
    · have h := listPages_stops_empty pages pageNames 100 1 ∅ k (by omega) h1 h2 hek hne hok
      rw [getUserRepositories, h, Finset.empty_union]
    · intro a
      rw [mem_unionFrom]
      constructor
      · rintro ⟨i, ha, hb, hc⟩
        exact ⟨i, ha, by omega, hc⟩
      · rintro ⟨i, ha, hb, hc⟩
        refine ⟨i, ha, by omega, hc⟩
  · intro hne
    constructor
    · have h := listPages_ceiling pages pageNames 100 1 ∅ (by omega) hne hok
      rw [getUserRepositories, h, Finset.empty_union]
    · intro a
      rw [mem_unionFrom]
      constructor
      · rintro ⟨i, ha, hb, hc⟩
        exact ⟨i, ha, by omega, hc⟩
      · rintro ⟨i, ha, hb, hc⟩
        exact ⟨i, ha, by omega, hc⟩

/-- Page oracle for the C6 witness: page 1 has two names, page 2 repeats
one of them, page 3 (and beyond) is empty. -/
def pagesTwo : Nat → PageResult := fun i =>
  if i = 1 then .response ⟨true, "OK", none, .list ["alpha", "beta"]⟩
  else if i = 2 then .response ⟨true, "OK", none, .list ["beta"]⟩
  else .response ⟨true, "OK", none, .list []⟩

/-- Names per page of `pagesTwo`. -/
def pageNamesTwo : Nat → List String := fun i =>
  if i = 1 then ["alpha", "beta"] else if i = 2 then ["beta"] else []

/-- C6 witness: the lister stops at the empty page 3 and returns the
deduplicated union of pages 1 and 2 (`"beta"` appears once). -/
theorem claim6_pagination_witness :
    getUserRepositories pagesTwo = .ok (unionFrom pageNamesTwo 1 2, false) ∧
    unionFrom pageNamesTwo 1 2 = {"alpha", "beta"} := by
  have hok : ∀ i, 1 ≤ i → i ≤ 100 → processPage (pagesTwo i) = .ok (pageNamesTwo i) := by
    intro i h1 h2
    by_cases e1 : i = 1
    · subst e1; rfl
    · by_cases e2 : i = 2
      · subst e2; rfl
      · rw [pagesTwo, pageNamesTwo, if_neg e1, if_neg e1, if_neg e2, if_neg e2]
        rfl
  refine ⟨((claim6_pagination pagesTwo pageNamesTwo hok).1 3 (by omega) (by omega)
    (by decide) ?_).1, by decide⟩
  intro i h1 h2
  have h : i = 1 ∨ i = 2 := by omega
  rcases h with rfl | rfl <;> decide

/-- C8: the run's exit status is independent of the per-repository and
per-entry outcome oracles — it is zero exactly when the Safety Gate, the
lock acquisition, the remote listing and the local directory listing all
succeed (only configuration, lock and listing errors abort the run, in
interactive mode), and in that case the run still handles every validated
repository (each one is fetched or cloned) no matter which per-repository
or per-deletion steps fail. -/
theorem claim8_failure_isolation (w : World) :
    ((runMainTrace w).2 = none ↔
      (checkBackupDir w.rootCmp w.homeCmp = .ok () ∧ w.lockOk = true ∧
        (∃ p, getUserRepositories w.pages = .ok p) ∧
        (∃ L, w.listdir = some L))) ∧
    (∀ R b L, getUserRepositories w.pages = .ok (R, b) → w.listdir = some L →
      checkBackupDir w.rootCmp w.homeCmp = .ok () → w.lockOk = true →
      ∀ n, n ∈ validatedNames (R.sort (· ≤ ·)) →
        MirrorOp.fetch n ∈ (runMainTrace w).1 ∨
        MirrorOp.clone n ∈ (runMainTrace w).1) := by
  constructor
  · rw [runMainTrace]
    rcases hgate : checkBackupDir w.rootCmp w.homeCmp with e | u
    · simp [hgate]
    · cases u
      by_cases hlock : w.lockOk = true
      · rw [if_neg (by rw [hlock]; exact Bool.noConfusion)]
        rcases hrep : getUserRepositories w.pages with e | p
        · simp [hlock]
        · rcases hdir : w.listdir with _ | L
          · simp [hlock, hdir]
          · simp [hlock, hdir]
      · rw [if_pos (Bool.eq_false_iff.mpr hlock)]
        simp [hlock]
  · intro R b L hrep hdir hgate hlock n hn
    have htrace : (runMainTrace w).1 = (backupRun w.env (R.sort (· ≤ ·)) L).ops := by
      simp [runMainTrace, hgate, hlock, hrep, hdir]
    rw [htrace]
    rw [backupRun_ops]
    simp only [List.mem_append]
    rcases fetch_or_clone_mirrorAll w.env (validatedNames (R.sort (· ≤ ·))) _ n hn with
      h | h
    · exact Or.inl (Or.inr h)
    · exact Or.inr (Or.inr h)

/-- Page oracle for witnesses: page 1 lists one repository, every later
page is empty. -/
def pagesOneRepo : Nat → PageResult := fun i =>
  if i = 1 then .response ⟨true, "OK", none, .list ["a"]⟩
  else .response ⟨true, "OK", none, .list []⟩

/-- A world where everything external succeeds: gate comparisons are
`different`, the lock is acquired, the listing returns `{"a"}`, the backup
directory is empty, and every per-name step would succeed. -/
def worldOneRepo : World :=
  ⟨.different, .different, true, pagesOneRepo, some ∅, envAllOk⟩

/-- C8 witness: in `worldOneRepo` the repository `"a"` is handled
(fetched or cloned). -/
theorem claim8_failure_isolation_witness :
    MirrorOp.fetch "a" ∈ (runMainTrace worldOneRepo).1 ∨
    MirrorOp.clone "a" ∈ (runMainTrace worldOneRepo).1 :=
  (claim8_failure_isolation worldOneRepo).2 {"a"} false ∅ rfl rfl rfl rfl "a"
    (by rw [Finset.sort_singleton]; decide)

/-- C9: whenever the remote listing fails (transport error, bad status or
malformed payload, all surfacing as a `ListerError`) and the run got as far
as calling it, the run aborts with that listing error having attempted no
operation at all: nothing is deleted, cloned or fetched. -/
theorem claim9_listing_atomicity (w : World) (e : ListerError)
    (hgate : checkBackupDir w.rootCmp w.homeCmp = .ok ())
    (hlock : w.lockOk = true)
    (hlist : getUserRepositories w.pages = .error e) :
    runMainTrace w = ([], some (RunError.listingError e)) := by
  rw [runMainTrace, hgate]
  rw [if_neg (by rw [hlock]; exact Bool.noConfusion)]
  rw [hlist]

/-- Page oracle for the C9 witness: the very first request fails at the
transport level. -/
def pagesFailing : Nat → PageResult := fun _ => .transportError "connection refused"

/-- A world whose remote listing fails. -/
def worldFailing : World :=
  ⟨.different, .different, true, pagesFailing, some {"x"}, envAllOk⟩

/-- C9 witness: with a failing listing, the run performs no operation and
aborts with the wrapped transport error. -/
theorem claim9_listing_atomicity_witness :
    runMainTrace worldFailing =
      ([], some (RunError.listingError (.transport "connection refused"))) :=
  claim9_listing_atomicity worldFailing (.transport "connection refused") rfl rfl rfl

/-- C10: when the backup directory does not exist, both `os.path.samefile`
comparisons of the Safety Gate raise `ENOENT`, which `_check_backup_dir`
swallows, so the gate passes silently; with the lock stage (an external
library call, modelled as an oracle) and the remote listing succeeding, the
run only fails later, at `os.listdir`, with the "Unable to list" error. -/
theorem claim10_missing_dir_gate (w : World)
    (hroot : w.rootCmp = .fsError .enoent) (hhome : w.homeCmp = .fsError .enoent)
    (hlock : w.lockOk = true) (p : Finset String × Bool)
    (hlist : getUserRepositories w.pages = .ok p)
    (hdir : w.listdir = none) :
    checkBackupDir w.rootCmp w.homeCmp = .ok () ∧
    runMainTrace w = ([], some RunError.listDirError) := by
  have hgate : checkBackupDir w.rootCmp w.homeCmp = .ok () := by
    rw [hroot, hhome]
    rfl
  refine ⟨hgate, ?_⟩
  rw [runMainTrace, hgate]
  rw [if_neg (by rw [hlock]; exact Bool.noConfusion)]
  rw [hlist, hdir]

/-- Page oracle for the C10 witness: the user has no repositories. -/
def pagesNoRepos : Nat → PageResult := fun _ => .response ⟨true, "OK", none, .list []⟩

/-- A world whose backup directory is missing: both samefile comparisons
raise `ENOENT` and the directory listing fails. -/
def worldMissingDir : World :=
  ⟨.fsError .enoent, .fsError .enoent, true, pagesNoRepos, none, envAllOk⟩

/-- C10 witness: the gate passes on the missing directory and the run fails
at the directory listing. -/
theorem claim10_missing_dir_gate_witness :
    checkBackupDir worldMissingDir.rootCmp worldMissingDir.homeCmp = .ok () ∧
    runMainTrace worldMissingDir = ([], some RunError.listDirError) :=
  claim10_missing_dir_gate worldMissingDir rfl rfl rfl (∅, false) rfl rfl
